import Mathlib

/-!
Verification of the RADIUS dictionary code generator (`code-generator/src/main.rs`).

Strings are embedded as `List Char` (`Str`).  Regex-based operations of the
source (`^(?:#.*|)$`, `\s+` splitting, `\s*?#.+?$` stripping,
`^octets\[(\d+)]$`) are translated to explicit recursive functions on `Str`.
Rust `HashMap` / `BTreeMap` are embedded as association lists with the
observationally matching operations (overwriting insert and point lookup for
the hash map; key-sorted iteration and per-key append for the btree map).
The wire codec (`Packet` / `AVP`, an external collaborator of the generator)
is modelled from the spec's contracts.
-/

abbrev Str := List Char

/-- Whitespace class of the regex `\s` (ASCII part; dictionary lines carry no
other whitespace). -/
def isWs (c : Char) : Bool :=
  c = ' ' ∨ c = '\t' ∨ c = '\n' ∨ c = '\r' ∨ c = '\x0b' ∨ c = '\x0c'

/-- ASCII decimal digit, the regex class `\d`. -/
def isDigit (c : Char) : Bool := 48 ≤ c.toNat ∧ c.toNat ≤ 57

/-- Numeric value of a digit string (most significant first). -/
def natOfDigits (s : Str) : Nat := s.foldl (fun acc c => acc * 10 + (c.toNat - 48)) 0

/-- Rust `str::parse::<uN>()`: an optional leading `+`, then one or more
decimal digits, value at most `bound`; anything else is a parse error
(`none`). -/
def stripLeadingPlus (s : Str) : Str :=
  match s with
  | c :: rest => if c = '+' then rest else c :: rest
  | [] => []

def parseRustUInt (bound : Nat) (s : Str) : Option Nat :=
  let ds := stripLeadingPlus s
  if ds ≠ [] ∧ ds.all isDigit then
    let n := natOfDigits ds
    if n ≤ bound then some n else none
  else none

/-- Structural worker for `splitWS`; the fuel argument dominates the list
length at every call, so the fuel-exhausted arm is never reached. -/
def splitWSFuel : Nat → Str → List Str
  | _, [] => [[]]
  | 0, _ :: _ => [[]]
  | fuel + 1, c :: rest =>
    if isWs c then [] :: splitWSFuel fuel (rest.dropWhile isWs)
    else
      match splitWSFuel fuel rest with
      | t :: ts => (c :: t) :: ts
      | [] => [[c]]

/-- Model of `Regex::new(r"\s+").split(line)`: the pieces between maximal whitespace
runs, keeping an empty piece before a leading run and after a trailing run
(the empty input yields one empty piece). -/
def splitWS (l : Str) : List Str := splitWSFuel l.length l

instance exceptDecidableEq {ε α : Type} [DecidableEq ε] [DecidableEq α] :
    DecidableEq (Except ε α) := fun x y =>
  match x, y with
  | .ok a, .ok b =>
    if h : a = b then .isTrue (congrArg Except.ok h)
    else .isFalse (fun hc => h (Except.ok.inj hc))
  | .error a, .error b =>
    if h : a = b then .isTrue (congrArg Except.error h)
    else .isFalse (fun hc => h (Except.error.inj hc))
  | .ok _, .error _ => .isFalse (fun hc => Except.noConfusion hc)
  | .error _, .ok _ => .isFalse (fun hc => Except.noConfusion hc)

/-- Rust `str::split(',')`: empty pieces are kept, the empty input yields one
empty piece. -/
def splitComma (l : Str) : List Str :=
  match l with
  | [] => [[]]
  | c :: rest =>
    if c = ',' then [] :: splitComma rest
    else
      match splitComma rest with
      | t :: ts => (c :: t) :: ts
      | [] => [[c]]

/-- Model of `Regex::new(r"^(?:#.*|)$").is_match(line)`: the line is empty or its very
first character is `#` (no leading whitespace is allowed by the anchors). -/
def lineFilterMatches (l : Str) : Bool := l = [] ∨ l.head? = some '#'

/-- Model of `Regex::new(r"\s*?#.+?$").replace(field, "")` on a whitespace-free field:
drops everything from the first `#` that is followed by at least one
character; a `#` that ends the field matches nothing and is kept. -/
def stripTrailingComment (l : Str) : Str :=
  match l with
  | [] => []
  | [c] => [c]
  | c :: rest => if c = '#' then [] else c :: stripTrailingComment rest

def octetsLBracket : Str := "octets[".toList

/-- Model of `Regex::new(r"^octets\[(\d+)]$").captures(s)`: the digit group when `s`
is literally `octets[` + one or more digits + `]`. -/
def fixedLengthOctetsCapture (s : Str) : Option Str :=
  if s.take 7 = octetsLBracket ∧ s.getLast? = some ']' then
    if (s.drop 7).dropLast ≠ [] ∧ ((s.drop 7).dropLast).all isDigit
    then some ((s.drop 7).dropLast) else none
  else none

/-! ## Data model (structs and enums of `main.rs`) -/

def ATTRIBUTE_KIND : Str := "ATTRIBUTE".toList

def VALUE_KIND : Str := "VALUE".toList

def USER_PASSWORD_TYPE_OPT : Str := "encrypt=1".toList

def TUNNEL_PASSWORD_TYPE_OPT : Str := "encrypt=2".toList

def HAS_TAG_TYPE_OPT : Str := "has_tag".toList

def CONCAT_TYPE_OPT : Str := "concat".toList

inductive EncryptionType where
  | userPassword
  | tunnelPassword
deriving DecidableEq, Repr

/-- The 13 `valueClass` variants.  (`Ipv4Prefix`/`Ipv6Prefix` of the source
are spelled `ipv4Pfx`/`ipv6Pfx` here.) -/
inductive RadiusAttributeValueType where
  | string
  | userPassword
  | tunnelPassword
  | octets
  | ipAddr
  | ipv4Pfx
  | ipv6Addr
  | ipv6Pfx
  | ifId
  | date
  | integer
  | short
  | vsa
deriving DecidableEq, Repr

structure RadiusAttribute where
  name : Str
  typ : Nat                      -- u8
  value_type : RadiusAttributeValueType
  fixed_octets_length : Option Nat
  concat_octets : Bool
  has_tag : Bool
deriving DecidableEq, Repr

structure RadiusValue where
  name : Str
  value : Nat                    -- u16
deriving DecidableEq, Repr

def kwString : Str := "string".toList

def kwOctets : Str := "octets".toList

def kwIpaddr : Str := "ipaddr".toList

def kwIpv4pfx : Str := "ipv4prefix".toList

def kwIpv6addr : Str := "ipv6addr".toList

def kwIpv6pfx : Str := "ipv6prefix".toList

def kwIfid : Str := "ifid".toList

def kwDate : Str := "date".toList

def kwInteger : Str := "integer".toList

def kwShort : Str := "short".toList

def kwVsa : Str := "vsa".toList

/-- Translation of `RadiusAttributeValueType::from_str`: the closed vocabulary of 11 type
keywords. -/
def radiusAttributeValueTypeFromStr (s : Str) : Option RadiusAttributeValueType :=
  if s = kwString then some .string
  else if s = kwOctets then some .octets
  else if s = kwIpaddr then some .ipAddr
  else if s = kwIpv4pfx then some .ipv4Pfx
  else if s = kwIpv6addr then some .ipv6Addr
  else if s = kwIpv6pfx then some .ipv6Pfx
  else if s = kwIfid then some .ifId
  else if s = kwDate then some .date
  else if s = kwInteger then some .integer
  else if s = kwShort then some .short
  else if s = kwVsa then some .vsa
  else none

/-! ## Dictionary parser (`parse_dict_file`) -/

inductive ParseErr where
  | tooFewItems                  -- "the number of items is lacked in a line"
  | invalidType (token : Str)    -- "invalid type has come => _"
  | unexpectedKind (kind : Str)  -- "unexpected kind has come => _"
deriving DecidableEq, Repr

inductive ParsedLine where
  | skipped
  | attributeLine (a : RadiusAttribute)
  | valueLine (attributeName : Str) (v : RadiusValue)
deriving DecidableEq, Repr

/-- Outcome of the loop body for one line: a parsed record (or a skip), a
returned `Err`, or a panic of an `unwrap()` on a numeric field. -/
inductive LineOutcome where
  | ok (p : ParsedLine)
  | err (e : ParseErr)
  | panicked
deriving DecidableEq, Repr

/-- The `items[4].split(',')` modifier loop: last `encrypt=` option wins,
unrecognized options are ignored. -/
def parseTypeOpts (opts : Str) : Option EncryptionType × Bool × Bool :=
  (splitComma opts).foldl
    (fun st opt =>
      if opt = USER_PASSWORD_TYPE_OPT then (some EncryptionType.userPassword, st.2.1, st.2.2)
      else if opt = TUNNEL_PASSWORD_TYPE_OPT then (some EncryptionType.tunnelPassword, st.2.1, st.2.2)
      else if opt = HAS_TAG_TYPE_OPT then (st.1, true, st.2.2)
      else if opt = CONCAT_TYPE_OPT then (st.1, st.2.1, true)
      else st)
    (none, false, false)

/-- Rust `usize::MAX` (64-bit): bound of the `parse::<usize>()` in the
`octets[N]` branch. -/
def usizeMax : Nat := 2 ^ 64 - 1

/-- The `ATTRIBUTE_KIND` arm of the parse loop, on fields 1.. of the line
(`f1` name, `f2` type code, `f3` wire-type token, `rest` fields 5..). -/
def parseAttributeLine (f1 f2 f3 : Str) (rest : List Str) : LineOutcome :=
  let opts := match rest with
    | opts :: _ => parseTypeOpts opts
    | [] => (none, false, false)
  let enc := opts.1
  let hasTag := opts.2.1
  let concatOctets := opts.2.2
  match radiusAttributeValueTypeFromStr f3 with
  | some t =>
    let vt := if t = RadiusAttributeValueType.string then
        match enc with
        | some EncryptionType.userPassword => RadiusAttributeValueType.userPassword
        | some EncryptionType.tunnelPassword => RadiusAttributeValueType.tunnelPassword
        | none => t
      else t
    match parseRustUInt 255 f2 with
    | some typ => .ok (.attributeLine ⟨f1, typ, vt, none, concatOctets, hasTag⟩)
    | none => .panicked
  | none =>
    match fixedLengthOctetsCapture f3 with
    | some ds =>
      match parseRustUInt usizeMax ds with
      | some n =>
        match parseRustUInt 255 f2 with
        | some typ => .ok (.attributeLine ⟨f1, typ, .octets, some n, concatOctets, hasTag⟩)
        | none => .panicked
      | none => .panicked
    | none => .err (.invalidType f3)

/-- The `VALUE_KIND` arm: the numeric field is comment-stripped, then
`parse::<u16>().unwrap()`ed. -/
def parseValueLine (f1 f2 f3 : Str) : LineOutcome :=
  match parseRustUInt 65535 (stripTrailingComment f3) with
  | some value => .ok (.valueLine f1 ⟨f2, value⟩)
  | none => .panicked

/-- Dispatch on the whitespace-split fields of a non-filtered line.  (The
source checks `items.len() < 4` and then indexes fields 0..3; the pattern
match below is the same test.) -/
def parseItems (items : List Str) : LineOutcome :=
  match items with
  | kind :: f1 :: f2 :: f3 :: rest =>
    if kind = ATTRIBUTE_KIND then parseAttributeLine f1 f2 f3 rest
    else if kind = VALUE_KIND then parseValueLine f1 f2 f3
    else .err (.unexpectedKind kind)
  | _ => .err .tooFewItems

/-- The whole loop body for one raw line of the dictionary file. -/
def parseLine (line : Str) : LineOutcome :=
  if lineFilterMatches line then .ok .skipped
  else parseItems (splitWS line)

/-- Byte-lexicographic order on strings (the `Ord` used by the source's
`BTreeMap<String, _>`; identical to byte order on the ASCII names in
dictionaries). -/
def lexLt (a b : Str) : Bool :=
  match a, b with
  | [], [] => false
  | [], _ :: _ => true
  | _ :: _, [] => false
  | c :: as_, d :: bs => if c.toNat < d.toNat then true
      else if d.toNat < c.toNat then false
      else lexLt as_ bs

/-- The `BTreeMap` entry update of `radius_attribute_to_values`: push onto an
existing key's vector, else insert a fresh singleton at the sorted
position. -/
def btreeInsertValue (m : List (Str × List RadiusValue)) (k : Str) (v : RadiusValue) :
    List (Str × List RadiusValue) :=
  match m with
  | [] => [(k, [v])]
  | (k', vs) :: rest =>
    if k = k' then (k', vs ++ [v]) :: rest
    else if lexLt k k' then (k, [v]) :: (k', vs) :: rest
    else (k', vs) :: btreeInsertValue rest k v

inductive DictResult where
  | ok (attributes : List RadiusAttribute) (valuesMap : List (Str × List RadiusValue))
  | err (e : ParseErr)
  | panicked
deriving DecidableEq, Repr

def parseDictLoop (lines : List Str) (attrs : List RadiusAttribute)
    (vals : List (Str × List RadiusValue)) : DictResult :=
  match lines with
  | [] => .ok attrs vals
  | l :: rest =>
    match parseLine l with
    | .ok .skipped => parseDictLoop rest attrs vals
    | .ok (.attributeLine a) => parseDictLoop rest (attrs ++ [a]) vals
    | .ok (.valueLine an v) => parseDictLoop rest attrs (btreeInsertValue vals an v)
    | .err e => .err e
    | .panicked => .panicked

/-- Translation of `parse_dict_file`, on the file's lines. -/
def parse_dict_file (lines : List Str) : DictResult := parseDictLoop lines [] []

/-! ## Identifier case transforms

Deterministic models of the external `inflector` crate (a collaborator of the
generator, not part of this repository): enough structure to carry the
naming scheme of §6 of the spec; every claim below is insensitive to the
exact letter-level convention. -/

def toUpperChar (c : Char) : Char :=
  if 97 ≤ c.toNat ∧ c.toNat ≤ 122 then Char.ofNat (c.toNat - 32) else c

def toLowerChar (c : Char) : Char :=
  if 65 ≤ c.toNat ∧ c.toNat ≤ 90 then Char.ofNat (c.toNat + 32) else c

/-- Model of `Inflector::to_screaming_snake_case`. -/
def toScreamingSnakeCase (s : Str) : Str :=
  s.map (fun c => if c = '-' then '_' else toUpperChar c)

/-- Model of `Inflector::to_snake_case`. -/
def toSnakeCase (s : Str) : Str :=
  s.map (fun c => if c = '-' then '_' else toLowerChar c)

/-- Model of `Inflector::to_pascal_case`: drop `-`/`_` separators and
capitalize the letter that follows each (and the first letter). -/
def toPascalCase (s : Str) : Str :=
  match s with
  | [] => []
  | c :: rest =>
    (toUpperChar c :: rest).foldr
      (fun c acc => if c = '-' ∨ c = '_' then
          match acc with
          | a :: acc' => toUpperChar a :: acc'
          | [] => []
        else c :: acc) []

/-! ## Enumeration emitter (`generate_values_for_attribute_code`) -/

def RADIUS_VALUE_TYPE : Str := "u32".toList

/-- One emitted `pub const`: its identifier, the qualifying module of its
type annotation (`Some rfc` renders `rfc::TypeName`, `none` renders the bare
`TypeName`), the alias type name, and the numeric value. -/
structure EmittedConst where
  constName : Str
  qualifier : Option Str
  typeName : Str
  value : Nat
deriving DecidableEq, Repr

inductive ValuesEmitItem where
  | typeAlias (typeName : Str)   -- `pub type TypeName = u32;`
  | constItem (c : EmittedConst) -- `pub const NAME: [rfc::]TypeName = value;`
deriving DecidableEq, Repr

def mkConstName (typeName valueName : Str) : Str :=
  toScreamingSnakeCase typeName ++ ['_'] ++ toScreamingSnakeCase valueName

/-- Translation of `generate_values_for_attribute_code`: with no symbol-table hit a fresh
`pub type _ = u32` alias is emitted first and the constants are typed
unqualified; with a hit the constants are typed qualified by that file and no
alias is emitted. -/
def generate_values_for_attribute_code (attr : Str) (values : List RadiusValue)
    (maybe_rfc_name : Option Str) : List ValuesEmitItem :=
  let type_name := toPascalCase attr
  (match maybe_rfc_name with
   | none => [ValuesEmitItem.typeAlias type_name]
   | some _ => []) ++
  values.map (fun v =>
    ValuesEmitItem.constItem
      ⟨mkConstName type_name v.name, maybe_rfc_name, type_name, v.value⟩)

/-- Model of `HashMap::get` on the association-list embedding. -/
def hashGet (m : List (Str × Str)) (k : Str) : Option Str :=
  match m with
  | [] => none
  | (k', v) :: rest => if k = k' then some v else hashGet rest k

/-- Model of `HashMap::insert` on the association-list embedding: overwrites an
existing binding. -/
def hashInsert (m : List (Str × Str)) (k v : Str) : List (Str × Str) :=
  match m with
  | [] => [(k, v)]
  | (k', v') :: rest => if k = k' then (k, v) :: rest else (k', v') :: hashInsert rest k v

/-- Translation of `generate_values_code`: one group per `BTreeMap` entry, in key order. -/
def generate_values_code (attr_to_values_map : List (Str × List RadiusValue))
    (attr_name_to_rfc_name : List (Str × Str)) : List ValuesEmitItem :=
  (attr_to_values_map.map (fun p =>
    generate_values_for_attribute_code p.1 p.2 (hashGet attr_name_to_rfc_name p.1))).flatten

/-! ## Accessor emitter (`generate_attribute_code`) -/

/-- The generation strategy selected for one attribute (which
`generate_*_attribute_code` body is emitted). -/
inductive AccessorStrategy where
  | taggedString
  | plainString
  | userPassword
  | tunnelPassword
  | fixedLengthOctets (n : Nat)
  | concatOctets
  | plainOctets
  | ipaddr
  | ipv4Pfx
  | ipv6addr
  | ipv6Pfx
  | date
  | taggedValueDefinedInteger (valueTypeName : Str)
  | valueDefinedInteger (valueTypeName : Str)
  | taggedInteger
  | plainInteger
  | short
  | vsaNop
deriving DecidableEq, Repr

def msgTaggedUserPassword : Str := "tagged-user-password".toList

def msgTunnelPassword : Str := "tunnel-password".toList

def msgTaggedOctets : Str := "tagged-octets".toList

def msgTaggedIpAddr : Str := "tagged-ip-addr".toList

def msgTaggedIpV6Addr : Str := "tagged-ip-v6-addr".toList

def msgTaggedIpv6Pfx : Str := "tagged-ipv6-prefix".toList

def msgTaggedIfid : Str := "tagged-ifid".toList

def msgTaggedDate : Str := "tagged-date".toList

def msgTaggedShort : Str := "tagged-short".toList

/-- Translation of `generate_attribute_code`'s dispatch: the selected strategy, or the
message of the fatal `unimplemented!` panic for an unsupported
combination. -/
def generate_attribute_code (attr : RadiusAttribute) (value_defined_attributes_set : List Str) :
    Except Str AccessorStrategy :=
  match attr.value_type with
  | .string => if attr.has_tag then .ok .taggedString else .ok .plainString
  | .userPassword => if attr.has_tag then .error msgTaggedUserPassword else .ok .userPassword
  | .tunnelPassword => if attr.has_tag then .ok .tunnelPassword else .error msgTunnelPassword
  | .octets =>
    if attr.has_tag then .error msgTaggedOctets
    else
      match attr.fixed_octets_length with
      | some n => .ok (.fixedLengthOctets n)
      | none => if attr.concat_octets then .ok .concatOctets else .ok .plainOctets
  | .ipAddr => if attr.has_tag then .error msgTaggedIpAddr else .ok .ipaddr
  | .ipv4Pfx => if attr.has_tag then .error msgTaggedIpAddr else .ok .ipv4Pfx
  | .ipv6Addr => if attr.has_tag then .error msgTaggedIpV6Addr else .ok .ipv6addr
  | .ipv6Pfx => if attr.has_tag then .error msgTaggedIpv6Pfx else .ok .ipv6Pfx
  | .ifId => if attr.has_tag then .error msgTaggedIfid else .ok (.fixedLengthOctets 8)
  | .date => if attr.has_tag then .error msgTaggedDate else .ok .date
  | .integer =>
    if value_defined_attributes_set.contains attr.name then
      if attr.has_tag then .ok (.taggedValueDefinedInteger (toPascalCase attr.name))
      else .ok (.valueDefinedInteger (toPascalCase attr.name))
    else if attr.has_tag then .ok .taggedInteger
    else .ok .plainInteger
  | .short => if attr.has_tag then .error msgTaggedShort else .ok .short
  | .vsa => .ok .vsaNop

/-- One attribute's emitted block: the `_TYPE` constant and delete operation
(emitted for every class by `generate_common_attribute_code`) plus the
class-specific accessors. -/
structure AttributeEmit where
  typeIdentifier : Str
  typeValue : Nat
  methodIdentifier : Str
  strategy : AccessorStrategy
deriving DecidableEq, Repr

/-- Translation of `generate_attributes_code`: every attribute in order; the first
unsupported combination aborts (panic). -/
def generate_attributes_code (attrs : List RadiusAttribute)
    (value_defined_attributes_set : List Str) : Except Str (List AttributeEmit) :=
  match attrs with
  | [] => .ok []
  | a :: rest =>
    match generate_attribute_code a value_defined_attributes_set with
    | .error e => .error e
    | .ok s =>
      match generate_attributes_code rest value_defined_attributes_set with
      | .error e => .error e
      | .ok l =>
        .ok (⟨toScreamingSnakeCase a.name ++ "_TYPE".toList, a.typ, toSnakeCase a.name, s⟩ :: l)

/-! ## The main loop (`main`) -/

structure GenState where
  rfc_names : List Str
  attribute_name_to_rfc_name : List (Str × Str)
deriving DecidableEq, Repr

/-- One generated output artifact: its identifier, the header (imports of all
previously generated artifacts and the embedded dictionary text), the
attribute accessor blocks, and the value-enumeration blocks. -/
structure FileArtifact where
  rfc_name : Str
  importedRfcNames : List Str
  dictLines : List Str
  attributesCode : List AttributeEmit
  valuesCode : List ValuesEmitItem
deriving DecidableEq, Repr

inductive RunError where
  | parseFailure (e : ParseErr)
  | parsePanic
  | generatePanic (msg : Str)
deriving DecidableEq, Repr

/-- One iteration of `main`'s file loop: parse, emit (header, attributes,
values — the values consult the symbol table as accumulated from strictly
earlier files), then record this file's attributes in the symbol table and
its identifier in the import list. -/
def processFile (st : GenState) (f : Str × List Str) :
    Except RunError (FileArtifact × GenState) :=
  match parse_dict_file f.2 with
  | .err e => .error (.parseFailure e)
  | .panicked => .error .parsePanic
  | .ok attrs valuesMap =>
    let value_defined_attributes_set := valuesMap.map Prod.fst
    match generate_attributes_code attrs value_defined_attributes_set with
    | .error m => .error (.generatePanic m)
    | .ok attrCode =>
      let valuesCode := generate_values_code valuesMap st.attribute_name_to_rfc_name
      let artifact : FileArtifact := ⟨f.1, st.rfc_names, f.2, attrCode, valuesCode⟩
      let st' : GenState :=
        ⟨st.rfc_names ++ [f.1],
         attrs.foldl (fun m a => hashInsert m a.name f.1) st.attribute_name_to_rfc_name⟩
      .ok (artifact, st')

def runGeneratorLoop (files : List (Str × List Str)) (st : GenState) :
    Except RunError (List FileArtifact × GenState) :=
  match files with
  | [] => .ok ([], st)
  | f :: rest =>
    match processFile st f with
    | .error e => .error e
    | .ok (art, st') =>
      match runGeneratorLoop rest st' with
      | .error e => .error e
      | .ok (arts, stFinal) => .ok (art :: arts, stFinal)

/-- The whole generator run on an ordered list of `(identifier, lines)`
dictionary files (`main` after path plumbing: the identifier is the path's
extension, the list is already in the sorted processing order). -/
def runGenerator (files : List (Str × List Str)) : Except RunError (List FileArtifact) :=
  (runGeneratorLoop files ⟨[], []⟩).map Prod.fst

/-! ## Wire codec collaborator

Modelled from the spec: the `Packet`/`AVP` codec (`crate::core::packet`,
`crate::core::avp`) is not part of this repository's sources; §6 of the spec
fixes its contracts — `add`/`addAll` append instances, `lookupAll` returns
the instances of a type code in wire order, `lookupFirst` returns the first
such instance or the absent sentinel, `fromBytes`/`decodeBytes` carry a raw
byte payload. -/

structure AVP where
  typ : Nat            -- AVPType (u8)
  payload : List Nat   -- raw bytes
deriving DecidableEq, Repr

structure Packet where
  avps : List AVP
deriving DecidableEq, Repr

/-- Modelled from the spec: `AVP::from_bytes`. -/
def AVP.from_bytes (t : Nat) (value : List Nat) : AVP := ⟨t, value⟩

/-- Modelled from the spec: `AVP::encode_bytes` (decode of a bytes AVP). -/
def AVP.encode_bytes (a : AVP) : List Nat := a.payload

/-- Modelled from the spec: `Packet::add` appends one instance. -/
def Packet.add (p : Packet) (a : AVP) : Packet := ⟨p.avps ++ [a]⟩

/-- Modelled from the spec: `Packet::extend` appends instances in order. -/
def Packet.extend (p : Packet) (l : List AVP) : Packet := ⟨p.avps ++ l⟩

/-- Modelled from the spec: `Packet::lookup_all` returns all instances of a
type code in wire order. -/
def Packet.lookup_all (p : Packet) (t : Nat) : List AVP :=
  p.avps.filter (fun a => a.typ == t)

/-- Modelled from the spec: `Packet::lookup` returns the first instance of a
type code in wire order, if any. -/
def Packet.lookup (p : Packet) (t : Nat) : Option AVP := (p.lookup_all t).head?

/-- Model of `slice::chunks(n+1)`: consecutive chunks of at most `n+1` elements (the
`+1` pattern keeps the chunk size positive, as `chunks` requires). -/
def chunksSucc (n : Nat) (l : List Nat) : List (List Nat) :=
  match l with
  | [] => []
  | c :: rest => ((c :: rest).take (n + 1)) :: chunksSucc n ((c :: rest).drop (n + 1))
termination_by l.length
decreasing_by
  simp only [List.length_drop, List.length_cons]
  omega

/-- Behavior of `add` of the generated concatenated-octets accessor: split into chunks of
at most 253 bytes and write one instance per chunk
(`generate_concat_octets_attribute_code`). -/
def add_concat_octets (t : Nat) (p : Packet) (value : List Nat) : Packet :=
  p.extend ((chunksSucc 252 value).map (fun chunk => AVP.from_bytes t chunk))



/-- Behavior of `lookup` of the generated concatenated-octets accessor: `None` when no
instance exists, else the concatenation of all payloads in wire order. -/
def lookup_concat_octets (t : Nat) (p : Packet) : Option (List Nat) :=
  let avps := p.lookup_all t
  match avps with
  | [] => none
  | _ :: _ => some (avps.foldl (fun acc v => acc ++ v.encode_bytes) [])

/-- Decimal rendering of a number (for the embedded error message text). -/
def natToStr (n : Nat) : Str :=
  if n < 10 then [Char.ofNat (48 + n)]
  else natToStr (n / 10) ++ [Char.ofNat (48 + n % 10)]
decreasing_by exact Nat.div_lt_self (by omega) (by omega)

def bytesSuffix : Str := " bytes".toList

/-- The `AVPError` as surfaced by the generated fixed-length accessor:
`InvalidAttributeLengthError("{N} bytes", value.len())`. -/
inductive AVPError where
  | invalidAttributeLengthError (expected : Str) (actual : Nat)
deriving DecidableEq, Repr

/-- Behavior of `add` of the generated fixed-length-octets accessor
(`generate_fixed_length_octets_attribute_code`): reject a buffer whose
length is not `n` with an error carrying the expected and actual lengths. -/
def add_fixed_length_octets (t n : Nat) (p : Packet) (value : List Nat) :
    Except AVPError Packet :=
  if value.length ≠ n then
    .error (.invalidAttributeLengthError (natToStr n ++ bytesSuffix) value.length)
  else .ok (p.add (AVP.from_bytes t value))

/-- Behavior of `lookup` of the generated fixed-length-octets accessor. -/
def lookup_fixed_length_octets (t : Nat) (p : Packet) : Option (List Nat) :=
  (p.lookup t).map (fun v => v.encode_bytes)

/-! ## Claim-side definitions and concrete claim inputs -/

/-- The fixed unsupported list of §4.2, stated from the claim's words for
comparison with the dispatch of `generate_attribute_code`: tagged
user-password, untagged tunnel-password, tagged octets, tagged IP address
(v4 or v6), tagged IPv4/IPv6 prefix, tagged interface-id, tagged date,
tagged short integer. -/
def unsupportedCombination (vt : RadiusAttributeValueType) (hasTag : Bool) : Bool :=
  match vt, hasTag with
  | .userPassword, true => true
  | .tunnelPassword, false => true
  | .octets, true => true
  | .ipAddr, true => true
  | .ipv6Addr, true => true
  | .ipv4Pfx, true => true
  | .ipv6Pfx, true => true
  | .ifId, true => true
  | .date, true => true
  | .short, true => true
  | _, _ => false

def lineTunnelNoTag : Str := "ATTRIBUTE X 5 string encrypt=2".toList

def lineTunnelTag : Str := "ATTRIBUTE X 5 string encrypt=2,has_tag".toList

def lineWsHash : Str := " #".toList

def lineWsOnly : Str := "   ".toList

def lineWsHashWords : Str := " # a b c".toList

def elevenTypeKeywords : List Str :=
  [kwString, kwOctets, kwIpaddr, kwIpv4pfx, kwIpv6addr, kwIpv6pfx, kwIfid,
   kwDate, kwInteger, kwShort, kwVsa]

def lineOctets0 : Str := "ATTRIBUTE X 5 octets[0]".toList

def lineValueExtra : Str := "VALUE A B 3 junk".toList

def lineValuePlain : Str := "VALUE A B 3".toList

def lineBadBoth : Str := "ATTRIBUTE X 999 bogus".toList

def tokBogus : Str := "bogus".toList

def tok999 : Str := "999".toList

def lineValue65536 : Str := "VALUE A B 65536".toList

def lineValueNeg : Str := "VALUE A B -1".toList

def lineValue11Hash : Str := "VALUE A B 11#".toList

def tok65536 : Str := "65536".toList

def fooName : Str := "Foo".toList

def fileA : Str × List Str := (['a'], ["ATTRIBUTE Foo 1 string".toList])

def fileB : Str × List Str := (['b'], ["VALUE Foo Bar 1".toList])

def fileDupA : Str × List Str := (['a'], ["ATTRIBUTE Foo 1 integer".toList])

def fileDupB : Str × List Str := (['b'], ["ATTRIBUTE Foo 1 integer".toList])

def fileC : Str × List Str := (['c'], ["VALUE Foo Bar 1".toList])

def artC : FileArtifact :=
  ⟨['c'], [], fileC.2, [],
   [ValuesEmitItem.typeAlias fooName,
    ValuesEmitItem.constItem ⟨"FOO_BAR".toList, none, fooName, 1⟩]⟩

def stW : GenState := ⟨[['a']], [(fooName, ['a'])]⟩

def artW : FileArtifact :=
  ⟨['b'], [['a']], fileDupB.2,
   [⟨"FOO_TYPE".toList, 1, "foo".toList, .plainInteger⟩], []⟩

def stW' : GenState := ⟨[['a'], ['b']], [(fooName, ['b'])]⟩

theorem length_dropWhile_le (p : Char → Bool) (l : List Char) :
    (l.dropWhile p).length ≤ l.length := by
  induction l with
  | nil => simp [List.dropWhile]
  | cons c rest ih =>
    by_cases h : p c
    · simp only [List.dropWhile, h]
      exact Nat.le_succ_of_le ih
    · simp [List.dropWhile, h]

theorem splitWSFuel_congr (fuel₁ fuel₂ : Nat) (l : Str)
    (h₁ : l.length ≤ fuel₁) (h₂ : l.length ≤ fuel₂) :
    splitWSFuel fuel₁ l = splitWSFuel fuel₂ l := by
  induction fuel₁ generalizing fuel₂ l with
  | zero =>
    cases l with
    | nil => cases fuel₂ <;> rfl
    | cons c rest => simp at h₁
  | succ f ih =>
    cases l with
    | nil => cases fuel₂ <;> rfl
    | cons c rest =>
      cases fuel₂ with
      | zero => simp at h₂
      | succ f₂ =>
        simp only [List.length_cons] at h₁ h₂
        simp only [splitWSFuel]
        rw [ih f₂ (rest.dropWhile isWs)
            (le_trans (length_dropWhile_le isWs rest) (by omega))
            (le_trans (length_dropWhile_le isWs rest) (by omega)),
          ih f₂ rest (by omega) (by omega)]

/-- Unfolding equation of `splitWS` on a nonempty line. -/
theorem splitWS_cons (c : Char) (rest : Str) :
    splitWS (c :: rest)
      = if isWs c then [] :: splitWS (rest.dropWhile isWs)
        else match splitWS rest with
          | t :: ts => (c :: t) :: ts
          | [] => [[c]] := by
  simp only [splitWS, List.length_cons, splitWSFuel]
  rw [splitWSFuel_congr rest.length ((rest.dropWhile isWs).length) (rest.dropWhile isWs)
      (length_dropWhile_le isWs rest) le_rfl]

theorem chunksSucc_flatten (n : Nat) (l : List Nat) : (chunksSucc n l).flatten = l := by
  have key : ∀ (m : Nat) (l : List Nat), l.length ≤ m → (chunksSucc n l).flatten = l := by
    intro m
    induction m with
    | zero =>
      intro l h
      have : l = [] := List.eq_nil_of_length_eq_zero (Nat.le_zero.mp h)
      subst this
      simp [chunksSucc]
    | succ m ih =>
      intro l h
      cases l with
      | nil => simp [chunksSucc]
      | cons c rest =>
        rw [chunksSucc]
        simp only [List.flatten_cons]
        rw [ih ((c :: rest).drop (n + 1))
          (by simp only [List.length_drop, List.length_cons]; simp at h; omega)]
        exact List.take_append_drop (n + 1) (c :: rest)
  exact key l.length l le_rfl

theorem chunksSucc_length (n : Nat) (l : List Nat) :
    (chunksSucc n l).length = (l.length + n) / (n + 1) := by
  have key : ∀ (m : Nat) (l : List Nat), l.length ≤ m →
      (chunksSucc n l).length = (l.length + n) / (n + 1) := by
    intro m
    induction m with
    | zero =>
      intro l h
      have : l = [] := List.eq_nil_of_length_eq_zero (Nat.le_zero.mp h)
      subst this
      simp [chunksSucc, Nat.div_eq_of_lt (Nat.lt_succ_self n)]
    | succ m ih =>
      intro l h
      cases l with
      | nil => simp [chunksSucc, Nat.div_eq_of_lt (Nat.lt_succ_self n)]
      | cons c rest =>
        rw [chunksSucc]
        simp only [List.length_cons] at h ⊢
        rw [ih ((c :: rest).drop (n + 1))
          (by simp only [List.length_drop, List.length_cons]; omega)]
        simp only [List.length_drop, List.length_cons]
        rw [show rest.length + 1 + n = rest.length + (n + 1) from by omega,
          Nat.add_div_right _ (Nat.succ_pos n)]
        rcases le_or_lt rest.length n with hle | hlt
        · rw [show rest.length + 1 - (n + 1) + n = n from by omega,
            Nat.div_eq_of_lt (Nat.lt_succ_self n), Nat.div_eq_of_lt (by omega)]
        · rw [show rest.length + 1 - (n + 1) + n = rest.length from by omega]
  exact key l.length l le_rfl

theorem chunksSucc_mem (n : Nat) (l : List Nat) :
    ∀ c ∈ chunksSucc n l, c.length ≤ n + 1 ∧ c ≠ [] := by
  have key : ∀ (m : Nat) (l : List Nat), l.length ≤ m →
      ∀ c ∈ chunksSucc n l, c.length ≤ n + 1 ∧ c ≠ [] := by
    intro m
    induction m with
    | zero =>
      intro l h
      have : l = [] := List.eq_nil_of_length_eq_zero (Nat.le_zero.mp h)
      subst this
      simp [chunksSucc]
    | succ m ih =>
      intro l h c hc
      cases l with
      | nil => simp [chunksSucc] at hc
      | cons a rest =>
        rw [chunksSucc] at hc
        rcases List.mem_cons.mp hc with hc | hc
        · subst hc
          constructor
          · exact List.length_take_le (n + 1) (a :: rest)
          · simp [List.take_succ_cons]
        · exact ih _ (by simp only [List.length_drop, List.length_cons]; simp at h; omega) c hc
  exact key l.length l le_rfl

theorem foldl_append_encode (l : List AVP) (acc : List Nat) :
    l.foldl (fun acc v => acc ++ v.encode_bytes) acc = acc ++ (l.map AVP.payload).flatten := by
  induction l generalizing acc with
  | nil => simp
  | cons a rest ih =>
    simp only [List.foldl_cons, List.map_cons, List.flatten_cons]
    rw [ih]
    simp [AVP.encode_bytes, List.append_assoc]

theorem lookup_all_extend (p : Packet) (l : List AVP) (t : Nat) :
    (p.extend l).lookup_all t = p.lookup_all t ++ l.filter (fun a => a.typ == t) := by
  simp [Packet.extend, Packet.lookup_all, List.filter_append]

theorem filter_map_from_bytes (t : Nat) (cs : List (List Nat)) :
    ((cs.map (fun c => AVP.from_bytes t c)).filter (fun a => a.typ == t))
      = cs.map (fun c => AVP.from_bytes t c) := by
  induction cs with
  | nil => simp
  | cons c rest ih => simp [AVP.from_bytes, List.filter_cons, ih]

theorem map_payload_from_bytes (t : Nat) (cs : List (List Nat)) :
    (cs.map (fun c => AVP.from_bytes t c)).map AVP.payload = cs := by
  have hcomp : (AVP.payload ∘ fun c => AVP.from_bytes t c) = id := funext (fun c => rfl)
  rw [List.map_map, hcomp, List.map_id]

/-- C3: the generated concatenated-octets `add` appends one instance per
consecutive chunk of at most 253 bytes, `(L + 252) / 253 = ⌈L / 253⌉`
instances in total (hence 0 instances for an empty buffer); the generated
`lookup` returns `none` when no instance of the type code exists and
otherwise the wire-order concatenation of all instance payloads, which
reproduces the original buffer exactly. -/
theorem concat_octets_correct (t : Nat) (p : Packet) (v : List Nat)
    (h : p.lookup_all t = []) :
    (add_concat_octets t p v).avps
        = p.avps ++ (chunksSucc 252 v).map (fun c => AVP.from_bytes t c)
    ∧ (chunksSucc 252 v).length = (v.length + 252) / 253
    ∧ (∀ c ∈ chunksSucc 252 v, c.length ≤ 253 ∧ c ≠ [])
    ∧ (chunksSucc 252 v).flatten = v
    ∧ lookup_concat_octets t p = none
    ∧ lookup_concat_octets t (add_concat_octets t p v)
        = if v = [] then none else some v := by
  have hall : (add_concat_octets t p v).lookup_all t
      = (chunksSucc 252 v).map (fun c => AVP.from_bytes t c) := by
    unfold add_concat_octets
    rw [lookup_all_extend, h, filter_map_from_bytes]
    simp
  refine ⟨rfl, chunksSucc_length 252 v, ?_, chunksSucc_flatten 252 v, ?_, ?_⟩
  · intro c hc
    exact chunksSucc_mem 252 v c hc
  · simp [lookup_concat_octets, h]
  · simp only [lookup_concat_octets, hall]
    cases hm : (chunksSucc 252 v).map (fun c => AVP.from_bytes t c) with
    | nil =>
      have hv : v = [] := by
        cases v with
        | nil => rfl
        | cons a r => rw [chunksSucc] at hm; simp at hm
      subst hv
      simp
    | cons x xs =>
      have hv : v ≠ [] := by
        intro h0
        subst h0
        simp [chunksSucc] at hm
      rw [if_neg hv]
      show some ((x :: xs).foldl (fun acc v => acc ++ v.encode_bytes) []) = some v
      rw [← hm, foldl_append_encode, map_payload_from_bytes, chunksSucc_flatten]
      simp

theorem concat_octets_correct_witness :
    Packet.lookup_all ⟨[]⟩ 1 = []
    ∧ ((add_concat_octets 1 ⟨[]⟩ [7, 8, 9]).avps
          = (⟨[]⟩ : Packet).avps ++ (chunksSucc 252 [7, 8, 9]).map (fun c => AVP.from_bytes 1 c)
        ∧ (chunksSucc 252 [7, 8, 9]).length = (([7, 8, 9] : List Nat).length + 252) / 253
        ∧ (∀ c ∈ chunksSucc 252 [7, 8, 9], c.length ≤ 253 ∧ c ≠ [])
        ∧ (chunksSucc 252 [7, 8, 9]).flatten = [7, 8, 9]
        ∧ lookup_concat_octets 1 ⟨[]⟩ = none
        ∧ lookup_concat_octets 1 (add_concat_octets 1 ⟨[]⟩ [7, 8, 9])
            = if ([7, 8, 9] : List Nat) = [] then none else some [7, 8, 9]) :=
  ⟨rfl, concat_octets_correct 1 ⟨[]⟩ [7, 8, 9] rfl⟩

/-- C4: the generated fixed-length-octets `add` (also emitted for `ifid`
attributes, with N = 8) rejects a buffer whose length differs from N with an
error carrying both the expected length N and the actual length, and accepts
a buffer of length exactly N, which then round-trips through `lookup`. -/
theorem fixed_length_octets_correct (t n : Nat) (p : Packet) (v : List Nat)
    (h : p.lookup_all t = []) :
    (v.length ≠ n →
      add_fixed_length_octets t n p v
        = .error (.invalidAttributeLengthError (natToStr n ++ bytesSuffix) v.length))
    ∧ (v.length = n →
      add_fixed_length_octets t n p v = .ok (p.add (AVP.from_bytes t v))
      ∧ lookup_fixed_length_octets t (p.add (AVP.from_bytes t v)) = some v)
    ∧ (∀ (a : RadiusAttribute) (s : List Str), a.value_type = .ifId → a.has_tag = false →
      generate_attribute_code a s = .ok (.fixedLengthOctets 8)) := by
  refine ⟨?_, ?_, ?_⟩
  · intro hne
    simp [add_fixed_length_octets, hne]
  · intro he
    have hall : (p.add (AVP.from_bytes t v)).lookup_all t = [AVP.from_bytes t v] := by
      simp only [Packet.add, Packet.lookup_all]
      simp only [Packet.lookup_all] at h
      rw [List.filter_append, h]
      simp [AVP.from_bytes]
    refine ⟨by simp [add_fixed_length_octets, he], ?_⟩
    simp only [lookup_fixed_length_octets, Packet.lookup, hall]
    simp [AVP.encode_bytes, AVP.from_bytes]
  · intro a s hvt htag
    simp [generate_attribute_code, hvt, htag]

theorem fixed_length_octets_correct_witness :
    Packet.lookup_all ⟨[]⟩ 2 = []
    ∧ ((([4, 5] : List Nat).length ≠ 2 →
        add_fixed_length_octets 2 2 ⟨[]⟩ [4, 5]
          = .error (.invalidAttributeLengthError (natToStr 2 ++ bytesSuffix) ([4, 5] : List Nat).length))
      ∧ (([4, 5] : List Nat).length = 2 →
        add_fixed_length_octets 2 2 ⟨[]⟩ [4, 5] = .ok (Packet.add ⟨[]⟩ (AVP.from_bytes 2 [4, 5]))
        ∧ lookup_fixed_length_octets 2 (Packet.add ⟨[]⟩ (AVP.from_bytes 2 [4, 5])) = some [4, 5])
      ∧ (∀ (a : RadiusAttribute) (s : List Str), a.value_type = .ifId → a.has_tag = false →
        generate_attribute_code a s = .ok (.fixedLengthOctets 8))) :=
  ⟨rfl, fixed_length_octets_correct 2 2 ⟨[]⟩ [4, 5] rfl⟩

/-! ## C2: unsupported combinations -/

/-- C2: generation fails fatally exactly on the fixed unsupported list; in
particular `ATTRIBUTE X 5 string encrypt=2` parses to an untagged
tunnel-password attribute whose generation fails, while
`ATTRIBUTE X 5 string encrypt=2,has_tag` parses to a tagged tunnel-password
attribute whose generation succeeds with the tagged tunnel-password
accessors. -/
theorem unsupported_combination_rejection :
    (∀ (a : RadiusAttribute) (s : List Str),
      (∃ m, generate_attribute_code a s = .error m)
        ↔ unsupportedCombination a.value_type a.has_tag = true)
    ∧ (parseLine lineTunnelNoTag
        = .ok (.attributeLine ⟨['X'], 5, .tunnelPassword, none, false, false⟩)
      ∧ generate_attribute_code ⟨['X'], 5, .tunnelPassword, none, false, false⟩ []
        = .error msgTunnelPassword)
    ∧ (parseLine lineTunnelTag
        = .ok (.attributeLine ⟨['X'], 5, .tunnelPassword, none, false, true⟩)
      ∧ generate_attribute_code ⟨['X'], 5, .tunnelPassword, none, false, true⟩ []
        = .ok .tunnelPassword) := by
  refine ⟨?_, ⟨by decide, by decide⟩, ⟨by decide, by decide⟩⟩
  intro a s
  obtain ⟨nm, tc, vt, fl, co, ht⟩ := a
  cases vt <;> cases ht <;> rcases fl with _ | n <;> cases co <;>
    by_cases hm : nm ∈ s <;>
    simp [generate_attribute_code, unsupportedCombination, hm]

theorem unsupported_combination_rejection_witness :
    (∃ m, generate_attribute_code ⟨['Y'], 3, .userPassword, none, false, true⟩ [] = .error m)
      ↔ unsupportedCombination RadiusAttributeValueType.userPassword true = true :=
  unsupported_combination_rejection.1 ⟨['Y'], 3, .userPassword, none, false, true⟩ []

/-! ## C5: line filtering -/

theorem parseAttributeLine_ne_skipped (f1 f2 f3 : Str) (rest : List Str) :
    parseAttributeLine f1 f2 f3 rest ≠ .ok .skipped := by
  unfold parseAttributeLine
  (repeat' split) <;> simp

theorem parseValueLine_ne_skipped (f1 f2 f3 : Str) :
    parseValueLine f1 f2 f3 ≠ .ok .skipped := by
  unfold parseValueLine
  (repeat' split) <;> simp

theorem parseItems_ne_skipped (items : List Str) : parseItems items ≠ .ok .skipped := by
  unfold parseItems
  split
  · split
    · exact parseAttributeLine_ne_skipped _ _ _ _
    · split
      · exact parseValueLine_ne_skipped _ _ _
      · simp
  · simp

theorem splitWS_ws_only (l : Str) (hne : l ≠ []) (hws : ∀ c ∈ l, isWs c = true) :
    splitWS l = [[], []] := by
  cases l with
  | nil => exact absurd rfl hne
  | cons c rest =>
    rw [splitWS_cons, if_pos (hws c (List.mem_cons_self c rest)),
      List.dropWhile_eq_nil_iff.mpr (fun x hx => hws x (List.mem_cons_of_mem c hx))]
    rfl

/-- C5 counterexample: a line whose first non-space content is `#` but which
starts with whitespace, and a line consisting only of whitespace, are not
discarded — both fail with the too-few-fields parse error, contradicting the
claim that such lines yield no record and no error. -/
theorem line_filtering_cex :
    (lineWsHash.dropWhile isWs).head? = some '#'
    ∧ parseLine lineWsHash = .err .tooFewItems
    ∧ lineWsOnly ≠ []
    ∧ (∀ c ∈ lineWsOnly, isWs c = true)
    ∧ parseLine lineWsOnly = .err .tooFewItems := by decide

/-- C5 amended: a line is discarded (no record and no error) if and only if
it is empty or its very first character is `#`.  A nonempty line of only
whitespace is not discarded but fails with the too-few-fields error.  More
generally, any line whose first character is whitespace (hence any line with
whitespace before a `#`) is never discarded and always fails: its split
carries an empty leading field, so it fails with the too-few-fields error
when the split has fewer than 4 fields, and otherwise with the
unexpected-kind error on that empty first field. -/
theorem line_filtering_amended (line : Str) :
    (parseLine line = .ok .skipped ↔ (line = [] ∨ line.head? = some '#'))
    ∧ (line ≠ [] → (∀ c ∈ line, isWs c = true) → parseLine line = .err .tooFewItems)
    ∧ (∀ (c : Char) (rest : Str), isWs c = true →
        parseLine (c :: rest)
          = if (splitWS (c :: rest)).length < 4 then .err .tooFewItems
            else .err (.unexpectedKind [])) := by
  refine ⟨?_, ?_, ?_⟩
  · by_cases h : (line = [] ∨ line.head? = some '#')
    · have hb : lineFilterMatches line = true := decide_eq_true h
      simp [parseLine, hb, h]
    · have hb : lineFilterMatches line = false := decide_eq_false h
      simp only [parseLine, hb, Bool.false_eq_true, if_false]
      constructor
      · intro hx
        exact absurd hx (parseItems_ne_skipped _)
      · intro hx
        exact absurd hx h
  · intro hne hws
    have hb : lineFilterMatches line = false := by
      apply decide_eq_false
      rintro (h0 | h0)
      · exact hne h0
      · cases line with
        | nil => simp at h0
        | cons c rest =>
          simp only [List.head?_cons, Option.some.injEq] at h0
          have hc := hws c (List.mem_cons_self c rest)
          rw [h0] at hc
          exact absurd hc (by decide)
    simp only [parseLine, hb, Bool.false_eq_true, if_false]
    rw [splitWS_ws_only line hne hws]
    rfl
  · intro c rest hc
    have hb : lineFilterMatches (c :: rest) = false := by
      apply decide_eq_false
      rintro (h0 | h0)
      · simp at h0
      · simp only [List.head?_cons, Option.some.injEq] at h0
        rw [h0] at hc
        exact absurd hc (by decide)
    simp only [parseLine, hb, Bool.false_eq_true, if_false]
    rw [splitWS_cons, if_pos hc]
    rcases hsp : splitWS (rest.dropWhile isWs) with _ | ⟨f1, _ | ⟨f2, _ | ⟨f3, rest'⟩⟩⟩
    · rw [if_pos (show (([] : Str) :: ([] : List Str)).length < 4 from by norm_num)]
      rfl
    · rw [if_pos (show (([] : Str) :: [f1]).length < 4 from by norm_num)]
      rfl
    · rw [if_pos (show (([] : Str) :: [f1, f2]).length < 4 from by norm_num)]
      rfl
    · rw [if_neg (show ¬ (([] : Str) :: f1 :: f2 :: f3 :: rest').length < 4 from by
        simp only [List.length_cons]
        omega)]
      simp only [parseItems]
      rw [if_neg (show ¬ ([] : Str) = ATTRIBUTE_KIND from by decide),
        if_neg (show ¬ ([] : Str) = VALUE_KIND from by decide)]

theorem line_filtering_amended_witness :
    ((parseLine [' '] = .ok .skipped ↔ (([' '] : Str) = [] ∨ ([' '] : Str).head? = some '#'))
      ∧ (([' '] : Str) ≠ [] → (∀ c ∈ ([' '] : Str), isWs c = true) →
          parseLine [' '] = .err .tooFewItems)
      ∧ (∀ (c : Char) (rest : Str), isWs c = true →
          parseLine (c :: rest)
            = if (splitWS (c :: rest)).length < 4 then .err .tooFewItems
              else .err (.unexpectedKind [])))
    ∧ parseLine lineWsHashWords
        = (if (splitWS lineWsHashWords).length < 4 then LineOutcome.err .tooFewItems
           else .err (.unexpectedKind []))
    ∧ parseLine lineWsHashWords = .err (.unexpectedKind []) :=
  ⟨line_filtering_amended [' '],
   (line_filtering_amended []).2.2 ' ' ("# a b c".toList) (by decide),
   by decide⟩

/-! ## C7: two-stage wire-type classification -/

theorem parseRustUInt_digits (bound : Nat) (ds : Str) (h1 : ds ≠ [])
    (h2 : ds.all isDigit = true) (h3 : natOfDigits ds ≤ bound) :
    parseRustUInt bound ds = some (natOfDigits ds) := by
  cases ds with
  | nil => exact absurd rfl h1
  | cons d rest =>
    have hd : d ≠ '+' := by
      intro h0
      have hmem := (List.all_eq_true.mp h2) d (List.mem_cons_self d rest)
      rw [h0] at hmem
      exact absurd hmem (by decide)
    simp only [parseRustUInt]
    rw [show stripLeadingPlus (d :: rest) = d :: rest from by simp [stripLeadingPlus, hd]]
    rw [if_pos ⟨List.cons_ne_nil d rest, h2⟩, if_pos h3]

theorem fixedLengthOctetsCapture_iff (s ds : Str) :
    fixedLengthOctetsCapture s = some ds
      ↔ (s = octetsLBracket ++ ds ++ [']'] ∧ ds ≠ [] ∧ ds.all isDigit = true) := by
  constructor
  · intro h
    unfold fixedLengthOctetsCapture at h
    by_cases hc : (s.take 7 = octetsLBracket ∧ s.getLast? = some ']')
    · rw [if_pos hc] at h
      by_cases hd : ((s.drop 7).dropLast ≠ [] ∧ ((s.drop 7).dropLast).all isDigit = true)
      · rw [if_pos hd] at h
        obtain ⟨h7, hlast⟩ := hc
        obtain ⟨hne', hdig⟩ := hd
        have hds : ds = (s.drop 7).dropLast := (Option.some.inj h).symm
        subst hds
        have hr : s.drop 7 ≠ [] := by
          intro h0
          rw [h0] at hne'
          exact hne' rfl
        have hsplit : s = octetsLBracket ++ s.drop 7 := by
          conv_lhs => rw [← List.take_append_drop 7 s]
          rw [h7]
        have hlast2 : (s.drop 7).getLast? = some ']' := by
          rw [hsplit, List.getLast?_append] at hlast
          cases hro : (s.drop 7).getLast? with
          | none => exact absurd (List.getLast?_eq_none_iff.mp hro) hr
          | some x =>
            rw [hro] at hlast
            simpa using hlast
        have hrec : (s.drop 7).dropLast ++ [']'] = s.drop 7 :=
          List.dropLast_append_getLast? ']' (by simp [Option.mem_def, hlast2])
        refine ⟨?_, hne', hdig⟩
        rw [List.append_assoc, hrec]
        exact hsplit
      · rw [if_neg hd] at h
        exact absurd h (by simp)
    · rw [if_neg hc] at h
      exact absurd h (by simp)
  · rintro ⟨hs, hne, hdig⟩
    subst hs
    have hlen : octetsLBracket.length = 7 := rfl
    have h7 : ((octetsLBracket ++ ds ++ [']']).take 7) = octetsLBracket := by
      rw [List.append_assoc, ← hlen, List.take_left]
    have hlast : (octetsLBracket ++ ds ++ [']']).getLast? = some ']' :=
      List.getLast?_concat _
    have hdrop : ((octetsLBracket ++ ds ++ [']']).drop 7) = ds ++ [']'] := by
      rw [List.append_assoc, ← hlen, List.drop_left]
    unfold fixedLengthOctetsCapture
    rw [if_pos ⟨h7, hlast⟩]
    rw [hdrop, List.dropLast_concat]
    rw [if_pos ⟨hne, hdig⟩]

/-- C7 counterexample: the parametric pattern accepts `octets[0]`, producing
a fixed-length octets attribute with `fixedOctetLength = 0` — so a present
`fixedOctetLength` is not always positive, contrary to the claim. -/
theorem wiretype_classification_cex :
    parseLine lineOctets0
      = .ok (.attributeLine ⟨['X'], 5, .octets, some 0, false, false⟩)
    ∧ ¬ (∀ (a : RadiusAttribute) (n : Nat),
          parseLine lineOctets0 = .ok (.attributeLine a) →
          a.fixed_octets_length = some n → 0 < n) := by
  refine ⟨by decide, ?_⟩
  intro h
  exact absurd (h ⟨['X'], 5, .octets, some 0, false, false⟩ 0 (by decide) rfl) (by decide)

/-- C7 amended: the wire-type token is matched first against the closed
vocabulary of exactly 11 keywords; on mismatch the parametric pattern
`octets[<digits>]` is attempted, yielding the fixed-length octets class with
`fixedOctetLength` equal to the (possibly zero) decimal value of the digits;
on total mismatch parsing fails with the invalid-type error. -/
theorem wiretype_classification_amended :
    (∀ s : Str, (radiusAttributeValueTypeFromStr s).isSome = true ↔ s ∈ elevenTypeKeywords)
    ∧ elevenTypeKeywords.length = 11
    ∧ (∀ s ds : Str, fixedLengthOctetsCapture s = some ds
        ↔ (s = octetsLBracket ++ ds ++ [']'] ∧ ds ≠ [] ∧ ds.all isDigit = true))
    ∧ (∀ (f1 f2 f3 : Str) (rest : List Str),
        radiusAttributeValueTypeFromStr f3 = none →
        fixedLengthOctetsCapture f3 = none →
        parseAttributeLine f1 f2 f3 rest = .err (.invalidType f3))
    ∧ (∀ (f1 f2 f3 : Str) (rest : List Str) (ds : Str) (c : Nat),
        radiusAttributeValueTypeFromStr f3 = none →
        fixedLengthOctetsCapture f3 = some ds →
        natOfDigits ds ≤ usizeMax →
        parseRustUInt 255 f2 = some c →
        ∃ a : RadiusAttribute,
          parseAttributeLine f1 f2 f3 rest = .ok (.attributeLine a)
          ∧ a.value_type = .octets ∧ a.fixed_octets_length = some (natOfDigits ds)) := by
  refine ⟨?_, rfl, fixedLengthOctetsCapture_iff, ?_, ?_⟩
  · intro s
    unfold radiusAttributeValueTypeFromStr
    by_cases h1 : s = kwString
    · rw [if_pos h1]; exact iff_of_true rfl (by rw [h1]; decide)
    rw [if_neg h1]
    by_cases h2 : s = kwOctets
    · rw [if_pos h2]; exact iff_of_true rfl (by rw [h2]; decide)
    rw [if_neg h2]
    by_cases h3 : s = kwIpaddr
    · rw [if_pos h3]; exact iff_of_true rfl (by rw [h3]; decide)
    rw [if_neg h3]
    by_cases h4 : s = kwIpv4pfx
    · rw [if_pos h4]; exact iff_of_true rfl (by rw [h4]; decide)
    rw [if_neg h4]
    by_cases h5 : s = kwIpv6addr
    · rw [if_pos h5]; exact iff_of_true rfl (by rw [h5]; decide)
    rw [if_neg h5]
    by_cases h6 : s = kwIpv6pfx
    · rw [if_pos h6]; exact iff_of_true rfl (by rw [h6]; decide)
    rw [if_neg h6]
    by_cases h7 : s = kwIfid
    · rw [if_pos h7]; exact iff_of_true rfl (by rw [h7]; decide)
    rw [if_neg h7]
    by_cases h8 : s = kwDate
    · rw [if_pos h8]; exact iff_of_true rfl (by rw [h8]; decide)
    rw [if_neg h8]
    by_cases h9 : s = kwInteger
    · rw [if_pos h9]; exact iff_of_true rfl (by rw [h9]; decide)
    rw [if_neg h9]
    by_cases h10 : s = kwShort
    · rw [if_pos h10]; exact iff_of_true rfl (by rw [h10]; decide)
    rw [if_neg h10]
    by_cases h11 : s = kwVsa
    · rw [if_pos h11]; exact iff_of_true rfl (by rw [h11]; decide)
    rw [if_neg h11]
    refine iff_of_false (by simp) ?_
    simp only [elevenTypeKeywords, List.mem_cons, List.not_mem_nil, or_false]
    tauto
  · intro f1 f2 f3 rest h1 h2
    simp [parseAttributeLine, h1, h2]
  · intro f1 f2 f3 rest ds c h1 h2 h3 h4
    have hcap := (fixedLengthOctetsCapture_iff f3 ds).mp h2
    have hds : parseRustUInt usizeMax ds = some (natOfDigits ds) :=
      parseRustUInt_digits usizeMax ds hcap.2.1 hcap.2.2 h3
    simp only [parseAttributeLine, h1, h2, hds, h4]
    exact ⟨_, rfl, rfl, rfl⟩

theorem wiretype_classification_amended_witness :
    ((radiusAttributeValueTypeFromStr kwDate).isSome = true ↔ kwDate ∈ elevenTypeKeywords)
    ∧ (fixedLengthOctetsCapture ("octets[0]".toList) = some ['0']
        ↔ (("octets[0]".toList : Str) = octetsLBracket ++ ['0'] ++ [']']
            ∧ (['0'] : Str) ≠ [] ∧ (['0'] : Str).all isDigit = true))
    ∧ parseAttributeLine ['X'] ['5'] ("bogus".toList) []
        = .err (.invalidType ("bogus".toList)) :=
  ⟨wiretype_classification_amended.1 kwDate,
   wiretype_classification_amended.2.2.1 ("octets[0]".toList) ['0'],
   wiretype_classification_amended.2.2.2.1 ['X'] ['5'] ("bogus".toList) []
     (by decide) (by decide)⟩

/-! ## C8: field counts -/

theorem stripTrailingComment_cons_cons (a y : Char) (ys : Str) :
    stripTrailingComment (a :: y :: ys)
      = if a = '#' then [] else a :: stripTrailingComment (y :: ys) := by
  rfl

theorem stripTrailingComment_no_hash (l : Str) (h : '#' ∉ l) :
    stripTrailingComment l = l := by
  induction l with
  | nil => rfl
  | cons a rest ih =>
    cases rest with
    | nil => rfl
    | cons y ys =>
      rw [stripTrailingComment_cons_cons,
        if_neg (fun h0 => h (by rw [← h0]; exact List.mem_cons_self a (y :: ys))),
        ih (fun hm => h (List.mem_cons_of_mem a hm))]

theorem stripTrailingComment_strips (l : Str) (h : '#' ∉ l) (c : Char) (cs : Str) :
    stripTrailingComment (l ++ '#' :: c :: cs) = l := by
  induction l with
  | nil => rfl
  | cons a rest ih =>
    have hrest : (rest ++ '#' :: c :: cs) ≠ [] := by simp
    cases hr : rest ++ '#' :: c :: cs with
    | nil => exact absurd hr hrest
    | cons y ys =>
      rw [List.cons_append, hr, stripTrailingComment_cons_cons,
        if_neg (fun h0 => h (by rw [← h0]; exact List.mem_cons_self a rest)), ← hr,
        ih (fun hm => h (List.mem_cons_of_mem a hm))]

/-- C8 counterexample: a VALUE line with a fifth, non-comment field is
accepted, and produces exactly the record the same line without the extra
field produces — contradicting the claim that such a line is not accepted as
if the extras were absent. -/
theorem field_count_cex :
    parseLine lineValueExtra = .ok (.valueLine ['A'] ⟨['B'], 3⟩)
    ∧ parseLine lineValueExtra = parseLine lineValuePlain := by
  exact ⟨by decide, by decide⟩

/-- C8 amended: any non-discarded line with fewer than 4 fields fails with
the too-few-fields error; an ATTRIBUTE line with at least 4 fields is
accepted (given a resolvable wire type and an in-range type code); a VALUE
line needs only at least 4 fields — every field beyond the fourth is ignored
outright, comment or not, and an inline comment attached to the fourth field
is stripped before numeric parsing. -/
theorem field_count_amended :
    (∀ items : List Str, items.length < 4 → parseItems items = .err .tooFewItems)
    ∧ (∀ f1 f2 f3 : Str, ∀ rest rest' : List Str,
        parseItems (VALUE_KIND :: f1 :: f2 :: f3 :: rest)
          = parseItems (VALUE_KIND :: f1 :: f2 :: f3 :: rest'))
    ∧ (∀ f1 f2 f3 : Str, ∀ rest : List Str, ∀ c : Char, ∀ cs : Str, '#' ∉ f3 →
        parseItems (VALUE_KIND :: f1 :: f2 :: (f3 ++ '#' :: c :: cs) :: rest)
          = parseItems (VALUE_KIND :: f1 :: f2 :: f3 :: rest))
    ∧ (∀ f1 f2 f3 : Str, ∀ rest : List Str, ∀ t : RadiusAttributeValueType, ∀ c : Nat,
        radiusAttributeValueTypeFromStr f3 = some t →
        parseRustUInt 255 f2 = some c →
        ∃ a : RadiusAttribute,
          parseItems (ATTRIBUTE_KIND :: f1 :: f2 :: f3 :: rest) = .ok (.attributeLine a)
          ∧ a.name = f1 ∧ a.typ = c) := by
  refine ⟨?_, ?_, ?_, ?_⟩
  · intro items h
    match items with
    | [] => rfl
    | [_] => rfl
    | [_, _] => rfl
    | [_, _, _] => rfl
    | _ :: _ :: _ :: _ :: _ =>
      exfalso
      simp only [List.length_cons] at h
      omega
  · intro f1 f2 f3 rest rest'
    simp only [parseItems,
      eq_false (show ¬ VALUE_KIND = ATTRIBUTE_KIND from by decide), if_false,
      eq_self_iff_true, if_true]
  · intro f1 f2 f3 rest c cs h
    simp only [parseItems,
      eq_false (show ¬ VALUE_KIND = ATTRIBUTE_KIND from by decide), if_false,
      eq_self_iff_true, if_true]
    unfold parseValueLine
    rw [stripTrailingComment_strips f3 h c cs, stripTrailingComment_no_hash f3 h]
  · intro f1 f2 f3 rest t c h1 h2
    simp only [parseItems, eq_self_iff_true, if_true]
    simp only [parseAttributeLine, h1, h2]
    exact ⟨_, rfl, rfl, rfl⟩

theorem field_count_amended_witness :
    parseItems [['V']] = .err .tooFewItems
    ∧ parseItems (VALUE_KIND :: ['A'] :: ['B'] :: ['3'] :: [['j']])
        = parseItems (VALUE_KIND :: ['A'] :: ['B'] :: ['3'] :: []) :=
  ⟨field_count_amended.1 [['V']] (by decide),
   field_count_amended.2.1 ['A'] ['B'] ['3'] [['j']] []⟩

/-! ## C10: numeric unwrap panics -/

/-- C10 counterexample: an ATTRIBUTE line whose type-code field is out of
range but whose wire-type token is unresolvable returns the descriptive
invalid-type error, not a panic — the claim's universal statement over every
ATTRIBUTE line with an out-of-range type code fails. -/
theorem numeric_panic_cex :
    parseRustUInt 255 tok999 = none
    ∧ parseLine lineBadBoth = .err (.invalidType tokBogus)
    ∧ parseLine lineBadBoth ≠ .panicked := by decide

/-- C10 amended: on an ATTRIBUTE line whose wire-type token resolves (one of
the 11 keywords, or `octets[<digits>]` with the value in usize range), a
type-code field that is not a decimal integer in 0..=255 panics the parser
via `unwrap` rather than returning the error result; a VALUE line whose
numeric field (after comment stripping) is not a decimal integer in
0..=65535 — e.g. 65536, a negative value, or the residue `11#` — always
panics; the panic is a failure mode distinct from the error channel.  (When
the wire-type token resolves neither way, the invalid-type error preempts
the numeric `unwrap`.) -/
theorem numeric_unwrap_panics_amended :
    (∀ (f1 f2 f3 : Str) (rest : List Str) (t : RadiusAttributeValueType),
      radiusAttributeValueTypeFromStr f3 = some t →
      parseRustUInt 255 f2 = none →
      parseItems (ATTRIBUTE_KIND :: f1 :: f2 :: f3 :: rest) = .panicked)
    ∧ (∀ (f1 f2 f3 : Str) (rest : List Str) (ds : Str),
      radiusAttributeValueTypeFromStr f3 = none →
      fixedLengthOctetsCapture f3 = some ds →
      natOfDigits ds ≤ usizeMax →
      parseRustUInt 255 f2 = none →
      parseItems (ATTRIBUTE_KIND :: f1 :: f2 :: f3 :: rest) = .panicked)
    ∧ (∀ (f1 f2 f3 : Str) (rest : List Str),
      parseRustUInt 65535 (stripTrailingComment f3) = none →
      parseItems (VALUE_KIND :: f1 :: f2 :: f3 :: rest) = .panicked)
    ∧ parseLine lineValue65536 = .panicked
    ∧ parseLine lineValueNeg = .panicked
    ∧ parseLine lineValue11Hash = .panicked
    ∧ (∀ e : ParseErr, (LineOutcome.panicked : LineOutcome) ≠ .err e) := by
  refine ⟨?_, ?_, ?_, by decide, by decide, by decide, fun e h => by cases h⟩
  · intro f1 f2 f3 rest t h1 h2
    simp only [parseItems, eq_self_iff_true, if_true]
    simp only [parseAttributeLine, h1, h2]
  · intro f1 f2 f3 rest ds h1 h2 h3 h4
    have hcap := (fixedLengthOctetsCapture_iff f3 ds).mp h2
    have hds : parseRustUInt usizeMax ds = some (natOfDigits ds) :=
      parseRustUInt_digits usizeMax ds hcap.2.1 hcap.2.2 h3
    simp only [parseItems, eq_self_iff_true, if_true]
    simp only [parseAttributeLine, h1, h2, hds, h4]
  · intro f1 f2 f3 rest h
    simp only [parseItems,
      eq_false (show ¬ VALUE_KIND = ATTRIBUTE_KIND from by decide), if_false,
      eq_self_iff_true, if_true]
    unfold parseValueLine
    rw [h]

theorem numeric_unwrap_panics_amended_witness :
    parseItems [ATTRIBUTE_KIND, ['X'], tok999, kwInteger] = .panicked
    ∧ parseItems [VALUE_KIND, ['A'], ['B'], tok65536] = .panicked :=
  ⟨numeric_unwrap_panics_amended.1 ['X'] tok999 kwInteger []
      RadiusAttributeValueType.integer (by decide) (by decide),
   numeric_unwrap_panics_amended.2.2.1 ['A'] ['B'] tok65536 [] (by decide)⟩

/-! ## C1 / C6: cross-file symbol table -/

theorem hashGet_hashInsert (m : List (Str × Str)) (k v k' : Str) :
    hashGet (hashInsert m k v) k' = if k' = k then some v else hashGet m k' := by
  induction m with
  | nil => simp [hashInsert, hashGet]
  | cons p rest ih =>
    obtain ⟨k0, v0⟩ := p
    by_cases h0 : k = k0
    · subst h0
      by_cases h1 : k' = k
      · subst h1
        simp [hashInsert, hashGet]
      · simp [hashInsert, hashGet, h1]
    · rw [show hashInsert ((k0, v0) :: rest) k v = (k0, v0) :: hashInsert rest k v
          from by simp [hashInsert, h0]]
      by_cases h1 : k' = k0
      · subst h1
        rw [show hashGet ((k', v0) :: hashInsert rest k v) k' = some v0 from by simp [hashGet],
          show hashGet ((k', v0) :: rest) k' = some v0 from by simp [hashGet],
          if_neg (fun hc => h0 hc.symm)]
      · simp only [hashGet, if_neg h1, ih]

theorem hashGet_foldl_insert (attrs : List RadiusAttribute) (m : List (Str × Str))
    (fid : Str) (k : Str) :
    hashGet (attrs.foldl (fun m a => hashInsert m a.name fid) m) k
      = if k ∈ attrs.map RadiusAttribute.name then some fid
        else hashGet m k := by
  induction attrs generalizing m with
  | nil => simp
  | cons a rest ih =>
    simp only [List.foldl_cons, List.map_cons]
    rw [ih]
    by_cases hr : k ∈ rest.map RadiusAttribute.name
    · rw [if_pos hr, if_pos (List.mem_cons_of_mem _ hr)]
    · rw [if_neg hr, hashGet_hashInsert]
      by_cases hk : k = a.name
      · rw [if_pos hk, if_pos (by rw [hk]; exact List.mem_cons_self _ _)]
      · rw [if_neg hk, if_neg (by
          intro hm
          rcases List.mem_cons.mp hm with h | h
          · exact hk h
          · exact hr h)]

/-- C1 counterexample: `Foo` is declared only as a `string` attribute (never
Integer with an enumeration), in an earlier file `a`; when a later file `b`
declares values for `Foo`, the emitter does not emit a fresh local alias — it
emits the value constant qualified by `a`.  The claim's condition
("resolvable as an Integer-classified attribute with an enumeration") is not
what the code tests; mere presence in the symbol table is. -/
theorem enum_typing_cex :
    parse_dict_file fileA.2
      = .ok [⟨fooName, 1, .string, none, false, false⟩] []
    ∧ (runGenerator [fileA, fileB]).map (fun arts => arts.map FileArtifact.valuesCode)
      = .ok [[], [ValuesEmitItem.constItem
          ⟨"FOO_BAR".toList, some ['a'], fooName, 1⟩]] := by
  exact ⟨by decide, by decide⟩

/-- C1 amended: for every value-declaration group of a file, the emitter
branches only on the symbol-table lookup of the group's attribute name
(declared by any strictly earlier file, of any wire type, enumeration or
not): on a miss it first emits a fresh named alias of the generic 32-bit
unsigned type and types each constant against that local alias, unqualified;
on a hit it emits no alias and types each constant qualified by the
originating file recorded in the table. -/
theorem enum_typing_amended (st : GenState) (f : Str × List Str) (art : FileArtifact)
    (st' : GenState) (h : processFile st f = .ok (art, st')) :
    ∃ attrs vm, parse_dict_file f.2 = .ok attrs vm
      ∧ art.valuesCode = (vm.map (fun p =>
          generate_values_for_attribute_code p.1 p.2
            (hashGet st.attribute_name_to_rfc_name p.1))).flatten
      ∧ (∀ a vs, (a, vs) ∈ vm →
          (hashGet st.attribute_name_to_rfc_name a = none →
            generate_values_for_attribute_code a vs (hashGet st.attribute_name_to_rfc_name a)
              = ValuesEmitItem.typeAlias (toPascalCase a)
                :: vs.map (fun v => ValuesEmitItem.constItem
                    ⟨mkConstName (toPascalCase a) v.name, none, toPascalCase a, v.value⟩))
          ∧ (∀ rfc, hashGet st.attribute_name_to_rfc_name a = some rfc →
            generate_values_for_attribute_code a vs (hashGet st.attribute_name_to_rfc_name a)
              = vs.map (fun v => ValuesEmitItem.constItem
                    ⟨mkConstName (toPascalCase a) v.name, some rfc, toPascalCase a, v.value⟩))) := by
  unfold processFile at h
  split at h
  · exact absurd h (by simp)
  · exact absurd h (by simp)
  · next attrs vm heq =>
    simp only [] at h
    split at h
    · exact absurd h (by simp)
    · next attrCode heq2 =>
      have hpair := Except.ok.inj h
      have hart : art = ⟨f.1, st.rfc_names, f.2, attrCode,
          generate_values_code vm st.attribute_name_to_rfc_name⟩ :=
        (congrArg Prod.fst hpair).symm
      refine ⟨attrs, vm, heq, ?_, ?_⟩
      · rw [hart]
        rfl
      · intro a vs _
        constructor
        · intro hnone
          simp [generate_values_for_attribute_code, hnone]
        · intro rfc hsome
          simp [generate_values_for_attribute_code, hsome]

theorem enum_typing_amended_witness :
    processFile ⟨[], []⟩ fileC = .ok (artC, ⟨[['c']], []⟩)
    ∧ (∃ attrs vm, parse_dict_file fileC.2 = .ok attrs vm
      ∧ artC.valuesCode = (vm.map (fun p =>
          generate_values_for_attribute_code p.1 p.2
            (hashGet (GenState.mk [] []).attribute_name_to_rfc_name p.1))).flatten
      ∧ (∀ a vs, (a, vs) ∈ vm →
          (hashGet (GenState.mk [] []).attribute_name_to_rfc_name a = none →
            generate_values_for_attribute_code a vs
                (hashGet (GenState.mk [] []).attribute_name_to_rfc_name a)
              = ValuesEmitItem.typeAlias (toPascalCase a)
                :: vs.map (fun v => ValuesEmitItem.constItem
                    ⟨mkConstName (toPascalCase a) v.name, none, toPascalCase a, v.value⟩))
          ∧ (∀ rfc, hashGet (GenState.mk [] []).attribute_name_to_rfc_name a = some rfc →
            generate_values_for_attribute_code a vs
                (hashGet (GenState.mk [] []).attribute_name_to_rfc_name a)
              = vs.map (fun v => ValuesEmitItem.constItem
                    ⟨mkConstName (toPascalCase a) v.name, some rfc, toPascalCase a, v.value⟩)))) :=
  ⟨by decide, enum_typing_amended ⟨[], []⟩ fileC artC ⟨[['c']], []⟩ (by decide)⟩

/-- C6 counterexample: after processing only file `a` (which declares `Foo`),
the symbol table binds `Foo` to `a`; after additionally processing file `b`,
which declares an attribute of the same name, the very same binding reads
`b` — the entry was overwritten, contradicting the claim that a binding
never changes for the rest of the run. -/
theorem symbol_table_cex :
    (runGeneratorLoop [fileDupA] ⟨[], []⟩).map
        (fun r => hashGet r.2.attribute_name_to_rfc_name fooName) = .ok (some ['a'])
    ∧ (runGeneratorLoop [fileDupA, fileDupB] ⟨[], []⟩).map
        (fun r => hashGet r.2.attribute_name_to_rfc_name fooName) = .ok (some ['b'])
    ∧ (['a'] : Str) ≠ ['b'] := by
  exact ⟨by decide, by decide, by decide⟩

/-- C6 amended: the symbol table accumulates as files are processed in
order, and is consulted (for the values code) only in its state before the
current file's insertions, i.e. only bindings of strictly earlier files; its
domain grows monotonically, but an entry is overwritten — not preserved —
when a later file declares an attribute of the same name: after a file, a
name it declares maps to that file, and every other name keeps its earlier
binding. -/
theorem symbol_table_amended (st : GenState) (f : Str × List Str) (art : FileArtifact)
    (st' : GenState) (h : processFile st f = .ok (art, st')) :
    ∃ attrs vm, parse_dict_file f.2 = .ok attrs vm
      ∧ art.valuesCode = generate_values_code vm st.attribute_name_to_rfc_name
      ∧ st'.attribute_name_to_rfc_name
          = attrs.foldl (fun m a => hashInsert m a.name f.1) st.attribute_name_to_rfc_name
      ∧ (∀ k, hashGet st'.attribute_name_to_rfc_name k
          = if k ∈ attrs.map RadiusAttribute.name then some f.1
            else hashGet st.attribute_name_to_rfc_name k)
      ∧ st'.rfc_names = st.rfc_names ++ [f.1] := by
  unfold processFile at h
  split at h
  · exact absurd h (by simp)
  · exact absurd h (by simp)
  · next attrs vm heq =>
    simp only [] at h
    split at h
    · exact absurd h (by simp)
    · next attrCode heq2 =>
      have hpair := Except.ok.inj h
      have hart : art = ⟨f.1, st.rfc_names, f.2, attrCode,
          generate_values_code vm st.attribute_name_to_rfc_name⟩ :=
        (congrArg Prod.fst hpair).symm
      have hst : st' = ⟨st.rfc_names ++ [f.1],
          attrs.foldl (fun m a => hashInsert m a.name f.1) st.attribute_name_to_rfc_name⟩ :=
        (congrArg Prod.snd hpair).symm
      refine ⟨attrs, vm, heq, by rw [hart], by rw [hst], ?_, by rw [hst]⟩
      intro k
      rw [hst]
      exact hashGet_foldl_insert attrs st.attribute_name_to_rfc_name f.1 k

theorem symbol_table_amended_witness :
    processFile stW fileDupB = .ok (artW, stW')
    ∧ (∃ attrs vm, parse_dict_file fileDupB.2 = .ok attrs vm
      ∧ artW.valuesCode = generate_values_code vm stW.attribute_name_to_rfc_name
      ∧ stW'.attribute_name_to_rfc_name
          = attrs.foldl (fun m a => hashInsert m a.name fileDupB.1)
              stW.attribute_name_to_rfc_name
      ∧ (∀ k, hashGet stW'.attribute_name_to_rfc_name k
          = if k ∈ attrs.map RadiusAttribute.name then some fileDupB.1
            else hashGet stW.attribute_name_to_rfc_name k)
      ∧ stW'.rfc_names = stW.rfc_names ++ [fileDupB.1]) :=
  ⟨by decide, symbol_table_amended stW fileDupB artW stW' (by decide)⟩

/-! ## C9: determinism -/

/-- C9: the whole generator pipeline is a pure function of the ordered list
of input dictionary files; two runs on equal inputs in equal order produce
equal output artifacts — including every generated identifier, since the
artifacts embed the identifier transforms' results.  (The source's hash
containers are only ever point-queried, never iterated, and the one iterated
map is an ordered `BTreeMap`, so its output admits this deterministic
functional embedding.) -/
theorem generator_deterministic (files₁ files₂ : List (Str × List Str))
    (h : files₁ = files₂) : runGenerator files₁ = runGenerator files₂ := by
  rw [h]

theorem generator_deterministic_witness :
    ([fileDupA] = [fileDupA])
    ∧ runGenerator [fileDupA] = runGenerator [fileDupA] :=
  ⟨rfl, generator_deterministic [fileDupA] [fileDupA] rfl⟩
